import Mathlib

/-!
Verification of the session/token/demultiplexer core of `snow-run-python`
(`src/snow_cli/session.py` and `src/snow_cli/commands.py`), via a shallow
embedding over `List Char`.  Python strings are modelled as `List Char`;
the HTTP and filesystem side effects are modelled by passing response
bodies / transport outcomes / file contents explicitly.
-/

namespace SnowCli

/-- Characters stripped by Python `str.strip()` (the ASCII whitespace set
plus the two common Unicode members NEL and NBSP is actually not stripped;
NBSP is not whitespace for `str.strip`; we model the ASCII set and U+0085,
U+001C–U+001F, which `str.isspace` reports).  The properties proved below
only use that characters NOT in this set survive stripping. -/
def pyIsSpace (c : Char) : Bool :=
  c = ' ' || c = '\t' || c = '\n' || c = '\x0d' ||
  c = '\x0b' || c = '\x0c' ||
  (0x1c ≤ c.toNat && c.toNat ≤ 0x1f) || c.toNat = 0x85

/-- The character class `[a-zA-Z0-9_]` used by all three token regexes. -/
def isTokenChar (c : Char) : Bool :=
  (('a' ≤ c && c ≤ 'z') || ('A' ≤ c && c ≤ 'Z') || ('0' ≤ c && c ≤ '9') || c = '_')

/-- Boolean "is `pat` a prefix of `s`" on character lists. -/
def isPrefixL : List Char → List Char → Bool
  | [], _ => true
  | _ :: _, [] => false
  | p :: ps, s :: ss => p = s && isPrefixL ps ss

/-- Case-insensitive prefix test (ASCII case folding, as `Char.toLower`;
Python's `re.IGNORECASE` additionally folds a few non-ASCII characters,
which none of the strings involved here contain). -/
def ciPrefix (pat s : List Char) : Bool :=
  isPrefixL (pat.map Char.toLower) (s.map Char.toLower)

/-- Boolean substring test: does `needle` occur (contiguously) in `hay`? -/
def containsSub (needle : List Char) : List Char → Bool
  | [] => isPrefixL needle []
  | c :: cs => isPrefixL needle (c :: cs) || containsSub needle cs

/-- Remove trailing characters satisfying `pyIsSpace` (the right half of
Python `str.strip()`). -/
def stripTrail : List Char → List Char
  | [] => []
  | c :: cs =>
    if (stripTrail cs).isEmpty && pyIsSpace c then [] else c :: stripTrail cs

/-- Python `str.strip()`: drop leading and trailing whitespace. -/
def pyStrip (l : List Char) : List Char :=
  stripTrail (l.dropWhile pyIsSpace)

/-- The named entities our model of `html.unescape` decodes.  Python's
table (`html.entities.html5`) is far larger; the theorems below do not
depend on the extent of the table, only on `unescape` being some fixed
total function on blocks. -/
def namedEntity : List Char → Option Char
  | ['a', 'm', 'p'] => some '&'
  | ['l', 't'] => some '<'
  | ['g', 't'] => some '>'
  | ['q', 'u', 'o', 't'] => some '"'
  | ['a', 'p', 'o', 's'] => some '\''
  | _ => none

/-- Recognise one character reference at the head of `rest` (what follows
a `&`): returns the decoded character and how many characters of `rest`
the reference consumed. -/
def tryEntity (rest : List Char) : Option (Char × Nat) :=
  match rest with
  | '#' :: rest2 =>
    let digs := rest2.takeWhile Char.isDigit
    if digs.isEmpty then none
    else
      match rest2.drop digs.length with
      | ';' :: _ =>
        some (Char.ofNat (digs.foldl (fun a c => 10 * a + (c.toNat - 48)) 0), digs.length + 2)
      | _ => none
  | _ =>
    let name := rest.takeWhile Char.isAlpha
    match namedEntity name, rest.drop name.length with
    | some ch, ';' :: _ => some (ch, name.length + 1)
    | _, _ => none

/-- Model of `html.unescape` (commands.py line 175), fuelled: decode
`&name;` for the common named entities and decimal `&#ddd;` references,
leaving everything else untouched.  Each step consumes at least one
character, so `fuel = length of the input` (as `unescape` passes) never
runs out. -/
def unescapeGo : Nat → List Char → List Char
  | 0, _ => []
  | _, [] => []
  | fuel + 1, c :: rest =>
    if c = '&' then
      match tryEntity rest with
      | some (ch, n) => ch :: unescapeGo fuel (rest.drop n)
      | none => '&' :: unescapeGo fuel rest
    else c :: unescapeGo fuel rest

def unescape (l : List Char) : List Char :=
  unescapeGo l.length l

/-! ### The script-output demultiplexer (`commands.py`, `_parse_and_display_output`) -/

/-- Scan for the first case-insensitive `</pre>`; return the content before
it and the remainder after it.  `none` when no closing tag occurs. -/
def findClose : List Char → Option (List Char × List Char)
  | [] => none
  | c :: cs =>
    if ciPrefix ['<', '/', 'p', 'r', 'e', '>'] (c :: cs) then
      some ([], (c :: cs).drop 6)
    else
      match findClose cs with
      | some (content, rest) => some (c :: content, rest)
      | none => none

theorem isPrefixL_length : ∀ (p s : List Char), isPrefixL p s = true → p.length ≤ s.length := by
  intro p
  induction p with
  | nil => intro s _; simp
  | cons a ps ih =>
    intro s h
    cases s with
    | nil => simp [isPrefixL] at h
    | cons b ss =>
      simp [isPrefixL] at h
      have := ih ss h.2
      simp
      omega

theorem ciPrefix_length (p s : List Char) (h : ciPrefix p s = true) : p.length ≤ s.length := by
  have := isPrefixL_length _ _ h
  simpa using this

/-- Model of `re.findall(r"<PRE>(.*?)</PRE>", html, re.DOTALL | re.IGNORECASE)`
(commands.py line 171), fuelled: the contents of the non-overlapping,
lazily matched `<PRE>...</PRE>` blocks, in document order.  On a failed
opening tag the scan advances one character (as the regex engine does); a
`<PRE>` with no later `</PRE>` ends the scan (and so does any later one,
since `findClose` searched to the end of the input).  Each step consumes
at least one character, so `fuel = length of the input` never runs out. -/
def preBlocksGo : Nat → List Char → List (List Char)
  | 0, _ => []
  | _, [] => []
  | fuel + 1, c :: cs =>
    if ciPrefix ['<', 'p', 'r', 'e', '>'] (c :: cs) then
      match findClose ((c :: cs).drop 5) with
      | some (content, rest) => content :: preBlocksGo fuel rest
      | none => []
    else preBlocksGo fuel cs

def preBlocks (l : List Char) : List (List Char) :=
  preBlocksGo l.length l

/-- The split marker `\*\*\* Script: ` of commands.py line 180, lowercased. -/
def scriptSplitMarker : List Char :=
  ['*', '*', '*', ' ', 's', 'c', 'r', 'i', 'p', 't', ':', ' ']

/-- The lowercased `<br/>` marker of commands.py line 180. -/
def brMarker : List Char := ['<', 'b', 'r', '/', '>']

/-- Model of `re.split(r"\*\*\* Script: |<BR/>|<br/>", block, flags=re.IGNORECASE)`,
fuelled: split on the leftmost occurrence of either marker, repeatedly;
empty pieces are kept (as `re.split` keeps them).  Each step consumes at
least one character, so `fuel = length of the input` never runs out. -/
def splitMarkersGo : Nat → List Char → List Char → List (List Char)
  | 0, l, acc => [acc.reverse ++ l]
  | _, [], acc => [acc.reverse]
  | fuel + 1, c :: cs, acc =>
    if ciPrefix scriptSplitMarker (c :: cs) then
      acc.reverse :: splitMarkersGo fuel ((c :: cs).drop 12) []
    else if ciPrefix brMarker (c :: cs) then
      acc.reverse :: splitMarkersGo fuel ((c :: cs).drop 5) []
    else
      splitMarkersGo fuel cs (c :: acc)

def splitMarkers (l : List Char) : List (List Char) :=
  splitMarkersGo l.length l []

/-- The literal (case-sensitive) marker of the membership test
`"*** Script:" in block` at commands.py line 189. -/
def scriptMarker : List Char :=
  ['*', '*', '*', ' ', 'S', 'c', 'r', 'i', 'p', 't', ':']

/-- The classification loop of commands.py lines 183–197, carrying the
enumeration index `i` and returning the `(stdout_parts, stderr_parts)`
contributed by one block. -/
def classifyParts (hasMarker : Bool) : Nat → List (List Char) → List (List Char) × List (List Char)
  | _, [] => ([], [])
  | i, p :: ps =>
    let part := pyStrip p
    let rest := classifyParts hasMarker (i + 1) ps
    if part.isEmpty then rest
    else if hasMarker then
      if i % 2 = 1 then (part :: rest.1, rest.2)
      else (rest.1, part :: rest.2)
    else (rest.1, part :: rest.2)

/-- Processing of one `<PRE>` block (commands.py lines 173–197): decode
entities, split on the markers, classify by position. -/
def blockResult (block : List Char) : List (List Char) × List (List Char) :=
  let decoded := unescape block
  classifyParts (containsSub scriptMarker decoded) 0 (splitMarkers decoded)

/-- The accumulating loop over all blocks (the Python `for block in
pre_blocks` appending to the shared `stdout_parts` / `stderr_parts`). -/
def demuxLoop : List (List Char) → List (List Char) × List (List Char) →
    List (List Char) × List (List Char)
  | [], st => st
  | b :: bs, st =>
    let r := blockResult b
    demuxLoop bs (st.1 ++ r.1, st.2 ++ r.2)

/-- The demultiplexer: `_parse_and_display_output`'s reconstruction of the
`(stdout_parts, stderr_parts)` streams from the HTML response. -/
def demux (respBody : List Char) : List (List Char) × List (List Char) :=
  demuxLoop (preBlocks respBody) ([], [])

/-- Which process stream a displayed line goes to. -/
inductive StreamKind where
  | out : StreamKind
  | err : StreamKind
deriving DecidableEq, Repr

/-- The display step (commands.py lines 199–206): all stdout lines are
printed first, then all stderr lines (the latter re-filtered by the
redundant `if line:`).  Each event is one `print` call. -/
def displayEvents (respBody : List Char) : List (StreamKind × List Char) :=
  let r := demux respBody
  r.1.map (fun s => (StreamKind.out, s)) ++
    (r.2.filter (fun s => !s.isEmpty)).map (fun s => (StreamKind.err, s))

/-! ### Helper lemmas about the demultiplexer -/

/-- The spec-side description of positional classification: the stripped,
non-empty segments sitting at odd enumeration index. -/
def oddSegments (l : List (Nat × List Char)) : List (List Char) :=
  l.filterMap fun ip =>
    if ip.1 % 2 = 1 ∧ (pyStrip ip.2).isEmpty = false then some (pyStrip ip.2) else none

/-- The stripped, non-empty segments sitting at even enumeration index. -/
def evenSegments (l : List (Nat × List Char)) : List (List Char) :=
  l.filterMap fun ip =>
    if ip.1 % 2 ≠ 1 ∧ (pyStrip ip.2).isEmpty = false then some (pyStrip ip.2) else none

theorem classifyParts_true_eq (ps : List (List Char)) : ∀ i,
    classifyParts true i ps = (oddSegments (ps.enumFrom i), evenSegments (ps.enumFrom i)) := by
  induction ps with
  | nil => intro i; simp [classifyParts, oddSegments, evenSegments, List.enumFrom]
  | cons p ps ih =>
    intro i
    simp only [classifyParts, List.enumFrom, oddSegments, evenSegments, List.filterMap_cons]
    rw [ih (i + 1)]
    by_cases hE : (pyStrip p).isEmpty
    · simp [hE, oddSegments, evenSegments]
    · by_cases hI : i % 2 = 1
      · simp [hE, hI, oddSegments, evenSegments]
      · simp [hE, hI, oddSegments, evenSegments]

theorem classifyParts_false_eq (ps : List (List Char)) : ∀ i,
    classifyParts false i ps =
      ([], ps.filterMap fun p => if (pyStrip p).isEmpty then none else some (pyStrip p)) := by
  induction ps with
  | nil => intro i; simp [classifyParts]
  | cons p ps ih =>
    intro i
    simp only [classifyParts, List.filterMap_cons]
    rw [ih (i + 1)]
    by_cases hE : (pyStrip p).isEmpty
    · simp [hE]
    · simp [hE]

theorem demuxLoop_eq (bs : List (List Char)) : ∀ st,
    demuxLoop bs st =
      (st.1 ++ bs.flatMap (fun b => (blockResult b).1),
       st.2 ++ bs.flatMap (fun b => (blockResult b).2)) := by
  induction bs with
  | nil => intro st; simp [demuxLoop]
  | cons b bs ih =>
    intro st
    simp only [demuxLoop, List.flatMap_cons]
    rw [ih]
    simp [List.append_assoc]

theorem demux_eq_flatMap (input : List Char) :
    demux input =
      ((preBlocks input).flatMap (fun b => (blockResult b).1),
       (preBlocks input).flatMap (fun b => (blockResult b).2)) := by
  simp [demux, demuxLoop_eq]

theorem stripTrail_ne_nil {x : List Char} (h : stripTrail x ≠ []) :
    ∃ c cs, x = c :: cs ∧ stripTrail x = c :: stripTrail cs := by
  cases x with
  | nil => simp [stripTrail] at h
  | cons c cs =>
    refine ⟨c, cs, rfl, ?_⟩
    by_cases hc : ((stripTrail cs).isEmpty && pyIsSpace c) = true
    · exact absurd (by simp only [stripTrail]; rw [if_pos hc]) h
    · simp only [stripTrail]
      rw [if_neg hc]

theorem dropWhile_cons_false {p : Char → Bool} {l cs : List Char} {c : Char}
    (h : l.dropWhile p = c :: cs) : p c = false := by
  induction l with
  | nil => simp at h
  | cons a as ih =>
    rw [List.dropWhile_cons] at h
    by_cases ha : p a = true
    · rw [if_pos ha] at h; exact ih h
    · rw [if_neg ha] at h
      injection h with h1 _
      subst h1
      simpa using ha

theorem pyStrip_mem_nonspace {p : List Char} (h : pyStrip p ≠ []) :
    ∃ c ∈ pyStrip p, pyIsSpace c = false := by
  have h' : stripTrail (p.dropWhile pyIsSpace) ≠ [] := h
  obtain ⟨c, cs, hx, hs⟩ := stripTrail_ne_nil h'
  refine ⟨c, ?_, dropWhile_cons_false hx⟩
  rw [pyStrip, hs]
  exact List.mem_cons_self c _

theorem classifyParts_mem {s : List Char} (m : Bool) (ps : List (List Char)) : ∀ i,
    (s ∈ (classifyParts m i ps).1 ∨ s ∈ (classifyParts m i ps).2) →
    ∃ p ∈ ps, s = pyStrip p ∧ s ≠ [] := by
  induction ps with
  | nil => intro i h; simp [classifyParts] at h
  | cons p ps ih =>
    intro i h
    by_cases hE : (pyStrip p).isEmpty
    · have hcp : classifyParts m i (p :: ps) = classifyParts m (i + 1) ps := by
        simp [classifyParts, hE]
      rw [hcp] at h
      obtain ⟨q, hq, hs⟩ := ih (i + 1) h
      exact ⟨q, List.mem_cons_of_mem _ hq, hs⟩
    · have hne : pyStrip p ≠ [] := by simpa using hE
      have hcase : s = pyStrip p ∨
          (s ∈ (classifyParts m (i + 1) ps).1 ∨ s ∈ (classifyParts m (i + 1) ps).2) := by
        cases m with
        | false =>
          have hcp : classifyParts false i (p :: ps) =
              ((classifyParts false (i + 1) ps).1,
                pyStrip p :: (classifyParts false (i + 1) ps).2) := by
            simp [classifyParts, hE]
          rw [hcp] at h
          rcases h with h | h
          · exact Or.inr (Or.inl h)
          · rcases List.mem_cons.mp h with h | h
            · exact Or.inl h
            · exact Or.inr (Or.inr h)
        | true =>
          by_cases hI : i % 2 = 1
          · have hcp : classifyParts true i (p :: ps) =
                (pyStrip p :: (classifyParts true (i + 1) ps).1,
                  (classifyParts true (i + 1) ps).2) := by
              simp [classifyParts, hE, hI]
            rw [hcp] at h
            rcases h with h | h
            · rcases List.mem_cons.mp h with h | h
              · exact Or.inl h
              · exact Or.inr (Or.inl h)
            · exact Or.inr (Or.inr h)
          · have hcp : classifyParts true i (p :: ps) =
                ((classifyParts true (i + 1) ps).1,
                  pyStrip p :: (classifyParts true (i + 1) ps).2) := by
              simp [classifyParts, hE, hI]
            rw [hcp] at h
            rcases h with h | h
            · exact Or.inr (Or.inl h)
            · rcases List.mem_cons.mp h with h | h
              · exact Or.inl h
              · exact Or.inr (Or.inr h)
      rcases hcase with h | h
      · exact ⟨p, List.mem_cons_self _ _, h, h ▸ hne⟩
      · obtain ⟨q, hq, hs⟩ := ih (i + 1) h
        exact ⟨q, List.mem_cons_of_mem _ hq, hs⟩

theorem demux_mem {input s : List Char}
    (h : s ∈ (demux input).1 ∨ s ∈ (demux input).2) :
    ∃ p, s = pyStrip p ∧ s ≠ [] := by
  rw [demux_eq_flatMap] at h
  have : ∃ b ∈ preBlocks input, s ∈ (blockResult b).1 ∨ s ∈ (blockResult b).2 := by
    rcases h with h | h <;> simp only [List.mem_flatMap] at h <;>
      obtain ⟨b, hb, hs⟩ := h
    · exact ⟨b, hb, Or.inl hs⟩
    · exact ⟨b, hb, Or.inr hs⟩
  obtain ⟨b, _, hs⟩ := this
  obtain ⟨p, _, hsp⟩ := classifyParts_mem _ _ 0 hs
  exact ⟨p, hsp⟩

/-! ### Claims about the demultiplexer -/

/-- C1.  Each `<PRE>` block is entity-decoded and split on the markers;
whenever the literal `*** Script:` occurs in the decoded block, the
segments at odd split index are classified stdout and those at even split
index stderr; in particular demultiplexing
`"<PRE>*** Script: hello<BR/>oops</PRE>"` yields stdout `["hello"]` and
stderr `["oops"]`. -/
theorem demux_positional_classification :
    demux ("<PRE>*** Script: hello<BR/>oops</PRE>".toList) =
      (["hello".toList], ["oops".toList]) ∧
    ∀ block : List Char, containsSub scriptMarker (unescape block) = true →
      blockResult block =
        (oddSegments ((splitMarkers (unescape block)).enum),
         evenSegments ((splitMarkers (unescape block)).enum)) := by
  refine ⟨by decide, ?_⟩
  intro block hm
  rw [blockResult, hm, List.enum]
  exact classifyParts_true_eq _ 0

/-- Witness for C1's general part at the concrete block `"*** Script: hi"`. -/
theorem demux_positional_classification_witness :
    containsSub scriptMarker (unescape ("*** Script: hi".toList)) = true ∧
    blockResult ("*** Script: hi".toList) =
      (oddSegments ((splitMarkers (unescape ("*** Script: hi".toList))).enum),
       evenSegments ((splitMarkers (unescape ("*** Script: hi".toList))).enum)) :=
  ⟨by decide, demux_positional_classification.2 _ (by decide)⟩

/-- C4.  Demultiplexing is total (every Lean function is; the Python code
has no raising operation on this path), and a block in which the literal
`*** Script:` does not occur contributes all of its non-empty stripped
segments to stderr and nothing to stdout; in particular
`"<PRE><BR/>trace line</PRE>"` yields stdout `[]`, stderr `["trace line"]`,
and `<PRE>`-free input yields empty output. -/
theorem demux_no_marker_all_stderr :
    demux ("<PRE><BR/>trace line</PRE>".toList) = ([], ["trace line".toList]) ∧
    (∀ block : List Char, containsSub scriptMarker (unescape block) = false →
      blockResult block =
        ([], (splitMarkers (unescape block)).filterMap
          fun p => if (pyStrip p).isEmpty then none else some (pyStrip p))) ∧
    demux ("no pre blocks at all".toList) = ([], []) := by
  refine ⟨by decide, ?_, by decide⟩
  intro block hm
  rw [blockResult, hm]
  exact classifyParts_false_eq _ 0

/-- Witness for C4's general part at the concrete block `"<BR/>x"`. -/
theorem demux_no_marker_all_stderr_witness :
    containsSub scriptMarker (unescape ("<BR/>x".toList)) = false ∧
    blockResult ("<BR/>x".toList) =
      ([], (splitMarkers (unescape ("<BR/>x".toList))).filterMap
        fun p => if (pyStrip p).isEmpty then none else some (pyStrip p)) :=
  ⟨by decide, demux_no_marker_all_stderr.2.1 _ (by decide)⟩

/-- C7.  Both output streams preserve document order: each stream is
exactly the in-order concatenation of the per-block contributions, block
by block in document order, so all segments of an earlier block precede
all segments of a later block; illustrated on a concrete two-block input. -/
theorem demux_document_order :
    (∀ input : List Char,
      demux input =
        ((preBlocks input).flatMap (fun b => (blockResult b).1),
         (preBlocks input).flatMap (fun b => (blockResult b).2))) ∧
    demux ("<PRE>*** Script: one<BR/>two</PRE><PRE>*** Script: three<BR/>four</PRE>".toList) =
      (["one".toList, "three".toList], ["two".toList, "four".toList]) :=
  ⟨demux_eq_flatMap, by decide⟩

/-- C9.  No empty or whitespace-only segment ever appears in either output
stream: every emitted segment contains a non-whitespace character. -/
theorem demux_no_blank_segments (input s : List Char)
    (h : s ∈ (demux input).1 ∨ s ∈ (demux input).2) :
    ∃ c ∈ s, pyIsSpace c = false := by
  obtain ⟨p, hsp, hne⟩ := demux_mem h
  subst hsp
  exact pyStrip_mem_nonspace hne

/-- Witness for C9 at the concrete input of C1's example. -/
theorem demux_no_blank_segments_witness :
    ("hello".toList ∈ (demux ("<PRE>*** Script: hello<BR/>oops</PRE>".toList)).1 ∨
      "hello".toList ∈ (demux ("<PRE>*** Script: hello<BR/>oops</PRE>".toList)).2) ∧
    ∃ c ∈ "hello".toList, pyIsSpace c = false :=
  ⟨Or.inl (by decide),
    demux_no_blank_segments ("<PRE>*** Script: hello<BR/>oops</PRE>".toList)
      ("hello".toList) (Or.inl (by decide))⟩

/-- C10.  The display step emits the two streams as fully separated
batches: every stdout print event precedes every stderr print event. -/
theorem display_stdout_before_stderr (input : List Char) (i j : Nat)
    (a b : List Char)
    (hi : (displayEvents input)[i]? = some (StreamKind.out, a))
    (hj : (displayEvents input)[j]? = some (StreamKind.err, b)) : i < j := by
  rw [displayEvents] at hi hj
  set A := (demux input).1.map (fun s => (StreamKind.out, s)) with hA
  set B := ((demux input).2.filter (fun s => !s.isEmpty)).map (fun s => (StreamKind.err, s)) with hB
  by_cases hilt : i < A.length
  · by_cases hjlt : j < A.length
    · exfalso
      rw [List.getElem?_append_left hjlt] at hj
      rw [hA, List.getElem?_map] at hj
      match hx : (demux input).1[j]? with
      | none => rw [hx] at hj; simp at hj
      | some v => rw [hx] at hj; simp at hj
    · omega
  · exfalso
    have hge : A.length ≤ i := by omega
    rw [List.getElem?_append_right hge] at hi
    rw [hB, List.getElem?_map] at hi
    match hx : ((demux input).2.filter (fun s => !s.isEmpty))[i - A.length]? with
    | none => rw [hx] at hi; simp at hi
    | some v => rw [hx] at hi; simp at hi

/-- Witness for C10 at C1's example, with the first stdout event and the
first stderr event. -/
theorem display_stdout_before_stderr_witness :
    (displayEvents ("<PRE>*** Script: hello<BR/>oops</PRE>".toList))[0]? =
        some (StreamKind.out, "hello".toList) ∧
    (displayEvents ("<PRE>*** Script: hello<BR/>oops</PRE>".toList))[1]? =
        some (StreamKind.err, "oops".toList) ∧
    (0 : Nat) < 1 :=
  ⟨by decide, by decide,
    display_stdout_before_stderr ("<PRE>*** Script: hello<BR/>oops</PRE>".toList)
      0 1 ("hello".toList) ("oops".toList) (by decide) (by decide)⟩

/-! ### Token extraction (`session.py`, `extract_token` and the three getters)

`extract_token(html, pattern)` is `re.search(pattern, html)` returning
`match.group(1)`.  We embed the two concrete patterns used by the code:
`sysparm_ck[^>]*value="([a-zA-Z0-9_]+)"` and `g_ck = '([a-zA-Z0-9_]+)'`,
with Python's leftmost-search and greedy-backtracking semantics.  The
group `([a-zA-Z0-9_]+)` is matched by its maximal run: shorter runs would
be followed by a token character, which can never match the closing
delimiter (`"` or `'`), so the `+`-backtracking is semantically inert. -/

/-- The literal `value="` following `[^>]*` in the `sysparm_ck` pattern. -/
def valueLit : List Char := ['v', 'a', 'l', 'u', 'e', '=', '"']

/-- The literal `sysparm_ck` the pattern must match first. -/
def sysparmLit : List Char := ['s', 'y', 's', 'p', 'a', 'r', 'm', '_', 'c', 'k']

/-- Attempt the suffix `value="([a-zA-Z0-9_]+)"` of the pattern at the
current position. -/
def tryValue (s : List Char) : Option (List Char) :=
  if isPrefixL valueLit s then
    if ((s.drop 7).takeWhile isTokenChar).isEmpty then none
    else
      match (s.drop 7).drop ((s.drop 7).takeWhile isTokenChar).length with
      | '"' :: _ => some ((s.drop 7).takeWhile isTokenChar)
      | _ => none
  else none

/-- Greedy backtracking of `[^>]*`: the star first consumes `k` characters
(at most the number of leading non-`>` characters) and gives back one at a
time until the rest of the pattern matches. -/
def backtrackVal (rest : List Char) : Nat → Option (List Char)
  | 0 => tryValue rest
  | k + 1 =>
    match tryValue (rest.drop (k + 1)) with
    | some t => some t
    | none => backtrackVal rest k

/-- `re.search` for `sysparm_ck[^>]*value="([a-zA-Z0-9_]+)"`: try each
start position left to right; at an occurrence of the literal, run the
greedy-backtracking tail; on failure resume the scan one character
further. -/
def sysparmSearch : List Char → Option (List Char)
  | [] => none
  | c :: cs =>
    if isPrefixL sysparmLit (c :: cs) then
      match backtrackVal ((c :: cs).drop 10)
          (((c :: cs).drop 10).takeWhile (fun x => x ≠ '>')).length with
      | some t => some t
      | none => sysparmSearch cs
    else sysparmSearch cs

/-- The literal `g_ck = '` of the elevate-token pattern. -/
def gckLit : List Char := ['g', '_', 'c', 'k', ' ', '=', ' ', '\'']

/-- `re.search` for `g_ck = '([a-zA-Z0-9_]+)'`. -/
def gckSearch : List Char → Option (List Char)
  | [] => none
  | c :: cs =>
    if isPrefixL gckLit (c :: cs) then
      if (((c :: cs).drop 8).takeWhile isTokenChar).isEmpty then gckSearch cs
      else
        match ((c :: cs).drop 8).drop (((c :: cs).drop 8).takeWhile isTokenChar).length with
        | '\'' :: _ => some (((c :: cs).drop 8).takeWhile isTokenChar)
        | _ => gckSearch cs
    else gckSearch cs

/-- Error carrying the `ValueError` message (the spec's `TokenNotFound`). -/
structure TokenError where
  message : List Char
deriving DecidableEq, Repr

def loginTokenMsg (instanceName : List Char) : List Char :=
  "Could not obtain login token from ".toList ++ instanceName

def scriptTokenMsg (instanceName : List Char) : List Char :=
  "Cannot get security token for ".toList ++ instanceName ++
    ". Try logging in again (snow login)".toList

def elevateTokenMsg : List Char :=
  "Could not obtain authentication token to elevate privileges".toList

/-- `get_login_token` on the body of `GET /login.do` (the HTTP fetch is
modelled by passing the response body).  The `if not token` guard also
treats an empty token as missing, as in the Python. -/
def get_login_token (instanceName body : List Char) : Except TokenError (List Char) :=
  match sysparmSearch body with
  | some t => if t.isEmpty then .error ⟨loginTokenMsg instanceName⟩ else .ok t
  | none => .error ⟨loginTokenMsg instanceName⟩

/-- `get_script_token` on the body of `GET /sys.scripts.do`. -/
def get_script_token (instanceName body : List Char) : Except TokenError (List Char) :=
  match sysparmSearch body with
  | some t => if t.isEmpty then .error ⟨scriptTokenMsg instanceName⟩ else .ok t
  | none => .error ⟨scriptTokenMsg instanceName⟩

/-- `get_elevate_token` on the body of `GET /navpage.do`. -/
def get_elevate_token (body : List Char) : Except TokenError (List Char) :=
  match gckSearch body with
  | some t => if t.isEmpty then .error ⟨elevateTokenMsg⟩ else .ok t
  | none => .error ⟨elevateTokenMsg⟩

/-! ### Helper lemmas about the token matchers -/

theorem isPrefixL_self_append : ∀ (p r : List Char), isPrefixL p (p ++ r) = true := by
  intro p
  induction p with
  | nil => intro r; rfl
  | cons a ps ih => intro r; simp [isPrefixL, ih]

theorem tryValue_cons_ne_v {c : Char} {s : List Char} (h : c ≠ 'v') :
    tryValue (c :: s) = none := by
  have hcv : ('v' = c) = False := by
    simp only [eq_iff_iff, iff_false]
    exact fun he => h he.symm
  simp [tryValue, valueLit, isPrefixL, hcv]

theorem prefix_value_token (t' r : List Char) (htok : ∀ ch ∈ t', isTokenChar ch = true) :
    isPrefixL valueLit (t' ++ '"' :: r) = false := by
  match t' with
  | [] => simp [valueLit, isPrefixL]
  | [a0] => simp [valueLit, isPrefixL]
  | [a0, a1] => simp [valueLit, isPrefixL]
  | [a0, a1, a2] => simp [valueLit, isPrefixL]
  | [a0, a1, a2, a3] => simp [valueLit, isPrefixL]
  | [a0, a1, a2, a3, a4] => simp [valueLit, isPrefixL]
  | a0 :: a1 :: a2 :: a3 :: a4 :: a5 :: rest2 =>
    have h5 : isTokenChar a5 = true := htok a5 (by simp)
    have hne : ('=' = a5) = False := by
      simp only [eq_iff_iff, iff_false]
      intro h
      rw [← h] at h5
      exact absurd h5 (by decide)
    simp [valueLit, isPrefixL, hne]

theorem tryValue_token_quote (t' r : List Char) (htok : ∀ ch ∈ t', isTokenChar ch = true) :
    tryValue (t' ++ '"' :: r) = none := by
  rw [tryValue, if_neg (by simp [prefix_value_token t' r htok])]

theorem tryValue_target (t r : List Char) (hne : t ≠ [])
    (htok : ∀ ch ∈ t, isTokenChar ch = true) :
    tryValue (valueLit ++ (t ++ '"' :: r)) = some t := by
  have hpre : isPrefixL valueLit (valueLit ++ (t ++ '"' :: r)) = true :=
    isPrefixL_self_append _ _
  have hdrop7 : (valueLit ++ (t ++ '"' :: r)).drop 7 = t ++ '"' :: r := by
    simp [valueLit]
  have hrun : (t ++ '"' :: r).takeWhile isTokenChar = t := by
    rw [List.takeWhile_append_of_pos htok]
    simp [List.takeWhile_cons, isTokenChar]
  have hdropt : (t ++ '"' :: r).drop t.length = '"' :: r := List.drop_left _ _
  rw [tryValue, if_pos hpre]
  rw [hdrop7, hrun, hdropt]
  rw [if_neg (by simpa using hne)]
  rfl

theorem tryValue_none_off (t c2 : List Char) (htok : ∀ ch ∈ t, isTokenChar ch = true) :
    ∀ o, 1 ≤ o → o ≤ t.length + 8 →
    tryValue ((valueLit ++ (t ++ '"' :: '>' :: c2)).drop o) = none := by
  intro o h1 h8
  by_cases h6 : o ≤ 6
  · have hdrop : (valueLit ++ (t ++ '"' :: '>' :: c2)).drop o =
        valueLit.drop o ++ (t ++ '"' :: '>' :: c2) :=
      List.drop_append_of_le_length (by simp [valueLit]; omega)
    rw [hdrop]
    interval_cases o
    · exact tryValue_cons_ne_v (by decide)
    · exact tryValue_cons_ne_v (by decide)
    · exact tryValue_cons_ne_v (by decide)
    · exact tryValue_cons_ne_v (by decide)
    · exact tryValue_cons_ne_v (by decide)
    · exact tryValue_cons_ne_v (by decide)
  · obtain ⟨i, rfl⟩ : ∃ i, o = 7 + i := ⟨o - 7, by omega⟩
    have hdrop : (valueLit ++ (t ++ '"' :: '>' :: c2)).drop (7 + i) =
        (t ++ '"' :: '>' :: c2).drop i := by
      have h7 : (valueLit ++ (t ++ '"' :: '>' :: c2)).drop (valueLit.length + i) =
          (t ++ '"' :: '>' :: c2).drop i := List.drop_append i
      simpa [valueLit] using h7
    rw [hdrop]
    by_cases hi : i ≤ t.length
    · rw [List.drop_append_of_le_length hi]
      exact tryValue_token_quote _ _ (fun ch hch => htok ch (List.mem_of_mem_drop hch))
    · have hi1 : i = t.length + 1 := by omega
      subst hi1
      have hx : (t ++ '"' :: '>' :: c2).drop (t.length + 1) = '>' :: c2 := by
        simp
      rw [hx]
      exact tryValue_cons_ne_v (by decide)

theorem backtrack_run (b t c2 : List Char) (hne : t ≠ [])
    (htok : ∀ ch ∈ t, isTokenChar ch = true) :
    ∀ j, j ≤ t.length + 8 →
    backtrackVal (b ++ (valueLit ++ (t ++ '"' :: '>' :: c2))) (b.length + j) = some t := by
  have htv : tryValue ((b ++ (valueLit ++ (t ++ '"' :: '>' :: c2))).drop b.length) = some t := by
    rw [List.drop_left]
    exact tryValue_target t _ hne htok
  intro j
  induction j with
  | zero =>
    intro _
    cases hb0 : b.length with
    | zero =>
      rw [hb0] at htv
      simp only [List.drop_zero] at htv
      simpa [backtrackVal] using htv
    | succ k =>
      rw [hb0] at htv
      simp only [Nat.add_zero, backtrackVal, htv]
  | succ j ih =>
    intro hj
    have hsum : b.length + (j + 1) = (b.length + j) + 1 := by omega
    rw [hsum, backtrackVal]
    have hoff : (b ++ (valueLit ++ (t ++ '"' :: '>' :: c2))).drop (b.length + j + 1) =
        (valueLit ++ (t ++ '"' :: '>' :: c2)).drop (j + 1) := by
      have h1 : b.length + j + 1 = b.length + (j + 1) := by omega
      rw [h1]
      exact List.drop_append _
    rw [hoff, tryValue_none_off t c2 htok (j + 1) (by omega) (by omega)]
    exact ih (by omega)

theorem sysparmSearch_cons_found {c : Char} {cs t : List Char}
    (hp : isPrefixL sysparmLit (c :: cs) = true)
    (hbt : backtrackVal ((c :: cs).drop 10)
      (((c :: cs).drop 10).takeWhile (fun x => x ≠ '>')).length = some t) :
    sysparmSearch (c :: cs) = some t := by
  rw [sysparmSearch, if_pos hp, hbt]

theorem sysparmSearch_found (b t c2 : List Char) (hb : ∀ ch ∈ b, ch ≠ '>')
    (hne : t ≠ []) (htok : ∀ ch ∈ t, isTokenChar ch = true) :
    sysparmSearch (sysparmLit ++ (b ++ (valueLit ++ (t ++ '"' :: '>' :: c2)))) = some t := by
  have hkmax : ((b ++ (valueLit ++ (t ++ '"' :: '>' :: c2))).takeWhile
      (fun x => x ≠ '>')).length = b.length + (t.length + 8) := by
    rw [List.takeWhile_append_of_pos (by intro ch hch; simpa using hb ch hch)]
    have hVgt : ∀ a ∈ valueLit, decide (a ≠ '>') = true := by decide
    rw [List.takeWhile_append_of_pos hVgt]
    rw [List.takeWhile_append_of_pos (by
      intro ch hch
      have := htok ch hch
      simp only [decide_eq_true_eq]
      intro hgt
      rw [hgt] at this
      exact absurd this (by decide))]
    simp [valueLit, List.takeWhile_cons]
  have hbt2 : backtrackVal (b ++ (valueLit ++ (t ++ '"' :: '>' :: c2)))
      (((b ++ (valueLit ++ (t ++ '"' :: '>' :: c2))).takeWhile
        (fun x => x ≠ '>')).length) = some t := by
    rw [hkmax]
    exact backtrack_run b t c2 hne htok (t.length + 8) (le_refl _)
  exact sysparmSearch_cons_found (isPrefixL_self_append sysparmLit _) hbt2

theorem sysparmSearch_append_skip : ∀ (a r : List Char),
    (∀ i < a.length, isPrefixL sysparmLit ((a ++ r).drop i) = false) →
    sysparmSearch (a ++ r) = sysparmSearch r := by
  intro a
  induction a with
  | nil => intro r _; rfl
  | cons x a' ih =>
    intro r hf
    have h0 : isPrefixL sysparmLit (x :: (a' ++ r)) = false := by
      have := hf 0 (by simp)
      simpa using this
    have hf' : ∀ i < a'.length, isPrefixL sysparmLit ((a' ++ r).drop i) = false := by
      intro i hi
      have := hf (i + 1) (by simp; omega)
      simpa using this
    rw [List.cons_append, sysparmSearch, if_neg (by simp [h0])]
    exact ih r hf'

theorem tryValue_some_ne {s t : List Char} (h : tryValue s = some t) : t ≠ [] := by
  rw [tryValue] at h
  by_cases hp : isPrefixL valueLit s = true
  · rw [if_pos hp] at h
    by_cases he : ((s.drop 7).takeWhile isTokenChar).isEmpty
    · rw [if_pos he] at h; exact absurd h (by simp)
    · rw [if_neg he] at h
      split at h
      · injection h with h1
        subst h1
        simpa using he
      · exact absurd h (by simp)
  · rw [if_neg hp] at h; exact absurd h (by simp)

theorem backtrackVal_some_ne {rest : List Char} :
    ∀ {k : Nat} {t : List Char}, backtrackVal rest k = some t → t ≠ [] := by
  intro k
  induction k with
  | zero => intro t h; exact tryValue_some_ne h
  | succ k ih =>
    intro t h
    rw [backtrackVal] at h
    split at h
    · next heq =>
      injection h with h1
      subst h1
      exact tryValue_some_ne heq
    · exact ih h

theorem sysparmSearch_some_ne : ∀ {body t : List Char},
    sysparmSearch body = some t → t ≠ [] := by
  intro body
  induction body with
  | nil => intro t h; exact absurd h (by simp [sysparmSearch])
  | cons c cs ih =>
    intro t h
    rw [sysparmSearch] at h
    by_cases hp : isPrefixL sysparmLit (c :: cs) = true
    · rw [if_pos hp] at h
      split at h
      · next heq =>
        injection h with h1
        subst h1
        exact backtrackVal_some_ne heq
      · exact ih h
    · rw [if_neg hp] at h; exact ih h

theorem gckSearch_some_ne : ∀ {body t : List Char},
    gckSearch body = some t → t ≠ [] := by
  intro body
  induction body with
  | nil => intro t h; exact absurd h (by simp [gckSearch])
  | cons c cs ih =>
    intro t h
    rw [gckSearch] at h
    by_cases hp : isPrefixL gckLit (c :: cs) = true
    · rw [if_pos hp] at h
      by_cases he : (((c :: cs).drop 8).takeWhile isTokenChar).isEmpty
      · rw [if_pos he] at h; exact ih h
      · rw [if_neg he] at h
        split at h
        · injection h with h1
          subst h1
          simpa using he
        · exact ih h
    · rw [if_neg hp] at h; exact ih h

theorem containsSub_append (n : List Char) : ∀ (l r : List Char),
    containsSub n r = true → containsSub n (l ++ r) = true := by
  intro l
  induction l with
  | nil => intro r h; simpa using h
  | cons x l' ih =>
    intro r h
    rw [List.cons_append, containsSub, ih r h]
    simp

/-! ### Claims about token extraction -/

/-- C2, counterexample.  The claim asserts `get_login_token` returns
`"abc123"` from any body containing `sysparm_ck` followed (without `>`)
by `value="abc123"`.  On the body
`sysparm_ck value="abc123" value="zzz"` — which contains such an
occurrence — the greedy `[^>]*` backtracks from the right and captures the
LAST `value="..."` of the `>`-free span, so the code returns `"zzz"`. -/
theorem sysparm_extraction_last_value_counterexample :
    get_login_token ("dev1.service-now.com".toList)
        ("sysparm_ck value=\"abc123\" value=\"zzz\"".toList) = .ok ("zzz".toList) ∧
    "zzz".toList ≠ "abc123".toList := by
  constructor
  · rfl
  · decide

/-- C2 as amended.  Token extraction is the single regex search
`sysparmSearch` (no fallback), and it returns the displayed token `t`
provided additionally that no occurrence of `sysparm_ck` starts earlier
in the body and that the closing quote of the `value` attribute is
immediately followed by `>` (which ends the `[^>]*` span, so no later
`value="..."` can steal the capture). -/
theorem sysparm_extraction_amended (inst a b t c2 : List Char)
    (hfirst : ∀ i < a.length,
      isPrefixL sysparmLit
        ((a ++ (sysparmLit ++ (b ++ (valueLit ++ (t ++ '"' :: '>' :: c2))))).drop i) = false)
    (hb : ∀ ch ∈ b, ch ≠ '>')
    (hne : t ≠ []) (htok : ∀ ch ∈ t, isTokenChar ch = true) :
    sysparmSearch (a ++ (sysparmLit ++ (b ++ (valueLit ++ (t ++ '"' :: '>' :: c2))))) =
      some t ∧
    get_login_token inst
      (a ++ (sysparmLit ++ (b ++ (valueLit ++ (t ++ '"' :: '>' :: c2))))) = .ok t := by
  have hsearch :
      sysparmSearch (a ++ (sysparmLit ++ (b ++ (valueLit ++ (t ++ '"' :: '>' :: c2))))) =
        some t := by
    rw [sysparmSearch_append_skip a _ hfirst]
    exact sysparmSearch_found b t c2 hb hne htok
  refine ⟨hsearch, ?_⟩
  rw [get_login_token, hsearch]
  simp [hne]

/-- Witness for the amended C2 at a concrete instantiation. -/
theorem sysparm_extraction_amended_witness :
    (∀ i < ("<p>".toList).length,
      isPrefixL sysparmLit
        (("<p>".toList ++ (sysparmLit ++ (" foo".toList ++
          (valueLit ++ ("abc123".toList ++ '"' :: '>' :: "</p>".toList))))).drop i) = false) ∧
    get_login_token ("dev1.service-now.com".toList)
      ("<p>".toList ++ (sysparmLit ++ (" foo".toList ++
        (valueLit ++ ("abc123".toList ++ '"' :: '>' :: "</p>".toList))))) =
      .ok ("abc123".toList) :=
  ⟨by decide,
    (sysparm_extraction_amended ("dev1.service-now.com".toList) ("<p>".toList)
      (" foo".toList) ("abc123".toList) ("</p>".toList)
      (by decide) (by decide) (by decide) (by decide)).2⟩

/-- C5.  Each getter fails (with the spec's `TokenNotFound`, the code's
`ValueError`) exactly when its pattern has no match in the response body
(`extract_token` never yields an empty capture, the group being `+`), and
the error raised by `get_script_token` carries a message suggesting
re-authentication.  The HTTP fetch of each getter is modelled by passing
the body of the respective page. -/
theorem token_getters_fail_iff_no_match (inst body : List Char) :
    ((∃ e, get_login_token inst body = .error e) ↔ sysparmSearch body = none) ∧
    ((∃ e, get_script_token inst body = .error e) ↔ sysparmSearch body = none) ∧
    ((∃ e, get_elevate_token body = .error e) ↔ gckSearch body = none) ∧
    (∀ e, get_script_token inst body = .error e →
      containsSub ("Try logging in again (snow login)".toList) e.message = true) := by
  refine ⟨?_, ?_, ?_, ?_⟩
  · cases hm : sysparmSearch body with
    | none => simp [get_login_token, hm]
    | some t =>
      have hne := sysparmSearch_some_ne hm
      simp [get_login_token, hm, hne]
  · cases hm : sysparmSearch body with
    | none => simp [get_script_token, hm]
    | some t =>
      have hne := sysparmSearch_some_ne hm
      simp [get_script_token, hm, hne]
  · cases hm : gckSearch body with
    | none => simp [get_elevate_token, hm]
    | some t =>
      have hne := gckSearch_some_ne hm
      simp [get_elevate_token, hm, hne]
  · intro e he
    have hmsg : e.message = scriptTokenMsg inst := by
      rw [get_script_token] at he
      cases hm : sysparmSearch body with
      | none =>
        rw [hm] at he
        injection he with h1
        rw [← h1]
      | some t =>
        have hne := sysparmSearch_some_ne hm
        rw [hm] at he
        simp [hne] at he
    rw [hmsg, scriptTokenMsg]
    exact containsSub_append _ _ _ (by decide)

/-- Witness for C5's message clause at a concrete instance and body. -/
theorem token_getters_fail_iff_no_match_witness :
    get_script_token ("dev1".toList) [] = .error ⟨scriptTokenMsg ("dev1".toList)⟩ ∧
    containsSub ("Try logging in again (snow login)".toList)
      (scriptTokenMsg ("dev1".toList)) = true :=
  ⟨by rfl,
    (token_getters_fail_iff_no_match ("dev1".toList) []).2.2.2
      ⟨scriptTokenMsg ("dev1".toList)⟩ (by rfl)⟩

/-! ### Cookie persistence (`session.py`, `_load_cookies` / `_save_cookies`)

The cookie file is written and read through `http.cookiejar.MozillaCookieJar`
(`save` / `load` with `ignore_discard=True, ignore_expires=True`), embedded
below from CPython's `http/cookiejar.py`.  A cookie is identified in both
the in-memory `RequestsCookieJar` and the `MozillaCookieJar` by the key
(domain, path, name); the in-memory jar therefore never holds two cookies
with the same key.  The jar's iteration groups cookies by domain, then
path, then name, in insertion order; we model the store as a flat list,
which is adequate for the set-level properties proved here. -/

/-- One cookie of the in-memory store.  `value = none` models the Python
`Cookie.value is None` case (saved with an empty name column); `httpOnly`
models the nonstandard `HTTPOnly` attribute (saved as a `#HttpOnly_`
domain prefix). -/
structure Cookie where
  domain : List Char
  path : List Char
  secure : Bool
  expires : Option Nat
  name : List Char
  value : Option (List Char)
  httpOnly : Bool
deriving DecidableEq, Repr

/-- Decimal rendering of a `Nat` (Python `str(cookie.expires)`), fuelled:
`fuel = n + 1` always suffices since `n / 10 < n` for `n ≥ 10`. -/
def natToCharsGo : Nat → Nat → List Char
  | 0, _ => []
  | fuel + 1, n =>
    if n < 10 then [Char.ofNat (48 + n)]
    else natToCharsGo fuel (n / 10) ++ [Char.ofNat (48 + n % 10)]

def natToChars (n : Nat) : List Char :=
  natToCharsGo (n + 1) n

/-- Python `int(...)` on the expiry column, restricted to the digit strings
the saver produces (`int` additionally accepts signs, surrounding
whitespace and `_` separators, none of which occur in saved files; a
non-digit string raises `ValueError`, i.e. parses to `none` here). -/
def parseNatDigits (l : List Char) : Option Nat :=
  if !l.isEmpty && l.all Char.isDigit then
    some (l.foldl (fun a c => 10 * a + (c.toNat - 48)) 0)
  else none

/-- CPython's `NETSCAPE_HEADER_TEXT`, written by `MozillaCookieJar.save`. -/
def netscapeHeader : List Char :=
  ("# Netscape HTTP Cookie File\n# http://curl.haxx.se/rfc/cookie_spec.html\n" ++
    "# This is a generated file!  Do not edit.\n\n").toList

/-- CPython's `HTTPONLY_PREFIX`. -/
def httpOnlyPrefix : List Char :=
  ['#', 'H', 't', 't', 'p', 'O', 'n', 'l', 'y', '_']

/-- `"TRUE"` / `"FALSE"` as written for the `domain_specified` and `secure`
columns. -/
def boolTF (b : Bool) : List Char :=
  if b then "TRUE".toList else "FALSE".toList

/-- The expiry column: `str(expires)` or empty. -/
def expField (c : Cookie) : List Char :=
  match c.expires with | some e => natToChars e | none => []

/-- The name column (empty when the cookie's value is `None`). -/
def nameField (c : Cookie) : List Char :=
  match c.value with | some _ => c.name | none => []

/-- The value column (the name when the cookie's value is `None`). -/
def valueField (c : Cookie) : List Char :=
  match c.value with | some v => v | none => c.name

/-- The seven tab-separated columns after the optional `#HttpOnly_`
prefix: domain, initial-dot flag, path, secure flag, expiry, name,
value. -/
def coreBody (c : Cookie) : List Char :=
  c.domain ++ ('\t' :: (boolTF (isPrefixL ['.'] c.domain) ++ ('\t' :: (c.path ++
    ('\t' :: (boolTF c.secure ++ ('\t' :: (expField c ++ ('\t' :: (nameField c ++
      ('\t' :: valueField c)))))))))))

/-- One saved line without its terminating newline, with the `value is
None` name/value swap and the `#HttpOnly_` domain prefix. -/
def cookieLineBody (c : Cookie) : List Char :=
  (if c.httpOnly then httpOnlyPrefix else []) ++ coreBody c

def cookieLine (c : Cookie) : List Char :=
  cookieLineBody c ++ ['\n']

/-- `_save_cookies`' file contents: header plus one line per cookie
(`ignore_discard` and `ignore_expires` are `True`, so no cookie is
skipped). -/
def saveJarContents (store : List Cookie) : List Char :=
  netscapeHeader ++ store.flatMap cookieLine

/-- Universal-newline translation performed by opening the file in text
mode on load: `\r\n` and bare `\r` both read as `\n`. -/
def univNewlines : List Char → List Char
  | [] => []
  | [c] => if c = '\x0d' then ['\n'] else [c]
  | c :: d :: rest =>
    if c = '\x0d' then
      if d = '\n' then '\n' :: univNewlines rest
      else '\n' :: univNewlines (d :: rest)
    else c :: univNewlines (d :: rest)

/-- Split the file into the sequence of lines `readline` yields (without
their terminating newlines; a final fragment with no newline is still a
line, and end-of-file yields nothing). -/
def readLinesAcc : List Char → List Char → List (List Char)
  | [], acc => if acc.isEmpty then [] else [acc.reverse]
  | c :: rest, acc =>
    if c = '\n' then acc.reverse :: readLinesAcc rest []
    else readLinesAcc rest (c :: acc)

def readLines (s : List Char) : List (List Char) :=
  readLinesAcc s []

/-- `line.split("\t")`: split on every tab, keeping empty pieces. -/
def splitTabAcc : List Char → List Char → List (List Char)
  | [], acc => [acc.reverse]
  | c :: rest, acc =>
    if c = '\t' then acc.reverse :: splitTabAcc rest []
    else splitTabAcc rest (c :: acc)

def splitTab (l : List Char) : List (List Char) :=
  splitTabAcc l []

/-- `NETSCAPE_MAGIC_RGX = re.compile("#( Netscape)? HTTP Cookie File")`,
applied with `.match` to the first line (the optional group is tried
greedily first). -/
def magicOk (line : List Char) : Bool :=
  isPrefixL ("# Netscape HTTP Cookie File".toList) line ||
  isPrefixL ("# HTTP Cookie File".toList) line

/-- Parse the seven columns of one data line (`_really_load`'s body):
wrong column count, a non-integer expiry, or a `domain_specified` flag
inconsistent with the domain's leading dot (the `assert`) abort the whole
load. -/
def parseFields (httpOnly : Bool) (fields : List (List Char)) : Option Cookie :=
  match fields with
  | [d, ds, p, sec, exp, n, v] =>
    if (ds = "TRUE".toList : Bool) = isPrefixL ['.'] d then
      match (if exp.isEmpty then some none
             else match parseNatDigits exp with
                  | some k => some (some k)
                  | none => none : Option (Option Nat)) with
      | some e =>
        if n.isEmpty then some ⟨d, p, (sec = "TRUE".toList : Bool), e, v, none, httpOnly⟩
        else some ⟨d, p, (sec = "TRUE".toList : Bool), e, n, some v, httpOnly⟩
      | none => none
    else none
  | _ => none

/-- The key under which both jars store a cookie. -/
def cookieKey (c : Cookie) : List Char × List Char × List Char :=
  (c.domain, c.path, c.name)

/-- `set_cookie`: insert into the nested dict keyed by (domain, path,
name) — replace in place on an existing key, append on a fresh one. -/
def setCookie (jar : List Cookie) (c : Cookie) : List Cookie :=
  if jar.any (fun x => cookieKey x = cookieKey c) then
    jar.map (fun x => if cookieKey x = cookieKey c then c else x)
  else jar ++ [c]

/-- The per-line loop of `MozillaCookieJar._really_load` (after the magic
line): strip an `#HttpOnly_` prefix, skip comment and blank lines, parse
the columns, `set_cookie` the result; any per-line failure aborts the
whole load (`LoadError`), modelled by `none`. -/
def processLines : List (List Char) → List Cookie → Option (List Cookie)
  | [], jar => some jar
  | line :: rest, jar =>
    if (pyStrip (if isPrefixL httpOnlyPrefix line then line.drop 10 else line)).isEmpty
        || isPrefixL ['#'] (pyStrip (if isPrefixL httpOnlyPrefix line then line.drop 10 else line))
        || isPrefixL ['$'] (pyStrip (if isPrefixL httpOnlyPrefix line then line.drop 10 else line)) then
      processLines rest jar
    else
      match parseFields (isPrefixL httpOnlyPrefix line)
          (splitTab (if isPrefixL httpOnlyPrefix line then line.drop 10 else line)) with
      | some c => processLines rest (setCookie jar c)
      | none => none

/-- `MozillaCookieJar.load` on the file's contents: magic-line check, then
the per-line loop.  `none` models a raised `LoadError`. -/
def loadJar (contents : List Char) : Option (List Cookie) :=
  match readLines (univNewlines contents) with
  | [] => none
  | first :: rest => if magicOk first then processLines rest [] else none

/-- `SnowSession._load_cookies`: no file means an empty store; a file that
loads yields its cookies; any loading exception is swallowed (`except
Exception: pass`) leaving the store empty.  This is the store of a freshly
constructed `SnowSession`. -/
def sessionStoreOfFile : Option (List Char) → List Cookie
  | none => []
  | some contents =>
    match loadJar contents with
    | some cs => cs
    | none => []

/-- Saving a store and loading it into a fresh session. -/
def roundTrip (store : List Cookie) : List Cookie :=
  sessionStoreOfFile (some (saveJarContents store))

/-- The (domain, name, value) triples of a store. -/
def triplesOf (store : List Cookie) : List (List Char × List Char × Option (List Char)) :=
  store.map fun c => (c.domain, c.name, c.value)

/-! ### The session request/persistence cycle (`session.py`, `get` / `post`) -/

/-- The on-disk cookie file: contents and permission bits. -/
structure SessionFile where
  contents : Option (List Char)
  mode : Option Nat
deriving DecidableEq, Repr

/-- In-memory session cookies plus the cookie file. -/
structure SessionState where
  cookies : List Cookie
  file : SessionFile
deriving DecidableEq, Repr

structure HttpResponse where
  status : Nat
  body : List Char
deriving DecidableEq, Repr

/-- Transport outcome of one HTTP call: a transport-level failure (the
`requests` call raising), or a response of any status code together with
the in-memory store after `requests` merged the `Set-Cookie` headers. -/
inductive Transport where
  | failure : Transport
  | success : HttpResponse → List Cookie → Transport

/-- `_save_cookies`: rewrite the cookie file from the in-memory store and
`chmod 0o600` it. -/
def saveCookiesStep (st : SessionState) : SessionState :=
  { st with file := { contents := some (saveJarContents st.cookies), mode := some 0o600 } }

/-- The shared body of `SnowSession.get` and `SnowSession.post`: perform
the request; on transport success (whatever the status code) update the
in-memory store and persist it; on transport failure the exception
propagates before `_save_cookies` runs, so the call fails and the file is
untouched. -/
def requestStep (st : SessionState) : Transport → Except Unit (HttpResponse × SessionState)
  | .failure => .error ()
  | .success resp newStore => .ok (resp, saveCookiesStep { st with cookies := newStore })

def sessionGet (st : SessionState) (tr : Transport) : Except Unit (HttpResponse × SessionState) :=
  requestStep st tr

def sessionPost (st : SessionState) (tr : Transport) : Except Unit (HttpResponse × SessionState) :=
  requestStep st tr

/-! ### Helper lemmas for the cookie round trip -/

/-- A field free of the file format's separator characters. -/
def noCtl (l : List Char) : Bool :=
  l.all fun ch => ch ≠ '\t' && ch ≠ '\n' && ch ≠ '\x0d'

/-- A cookie the Mozilla file format can represent faithfully: no
tab/newline/CR in any field, a non-empty name, and a domain whose first
non-whitespace character is not `#` or `$` (which would make the saved
line a comment). -/
def cleanCookie (c : Cookie) : Bool :=
  noCtl c.domain && noCtl c.path && noCtl c.name &&
  (match c.value with | some v => noCtl v | none => true) &&
  !c.name.isEmpty &&
  (match (c.domain.dropWhile pyIsSpace).head? with
   | some h => h ≠ '#' && h ≠ '$'
   | none => true)

theorem noCtl_spec {l : List Char} (h : noCtl l = true) :
    '\t' ∉ l ∧ '\n' ∉ l ∧ '\x0d' ∉ l := by
  simp only [noCtl, List.all_eq_true, Bool.and_eq_true, decide_eq_true_eq] at h
  refine ⟨fun m => ?_, fun m => ?_, fun m => ?_⟩
  · exact absurd rfl (h '\t' m).1.1
  · exact absurd rfl (h '\n' m).1.2
  · exact absurd rfl (h '\x0d' m).2

theorem cleanCookie_spec {c : Cookie} (h : cleanCookie c = true) :
    noCtl c.domain = true ∧ noCtl c.path = true ∧ noCtl c.name = true ∧
    (∀ v, c.value = some v → noCtl v = true) ∧
    c.name ≠ [] ∧
    (∀ hch, (c.domain.dropWhile pyIsSpace).head? = some hch → hch ≠ '#' ∧ hch ≠ '$') := by
  simp only [cleanCookie, Bool.and_eq_true, Bool.not_eq_true'] at h
  obtain ⟨⟨⟨⟨⟨h1, h2⟩, h3⟩, h4⟩, h5⟩, h6⟩ := h
  refine ⟨h1, h2, h3, ?_, by simpa using h5, ?_⟩
  · intro v hv
    rw [hv] at h4
    exact h4
  · intro hch hh
    rw [hh] at h6
    simp only [Bool.and_eq_true, decide_eq_true_eq] at h6
    exact h6

theorem univNewlines_id : ∀ (l : List Char), '\x0d' ∉ l → univNewlines l = l := by
  intro l
  induction l with
  | nil => intro _; rfl
  | cons c cs ih =>
    intro h
    have hc : c ≠ '\x0d' := fun e => h (by simp [e])
    have hcs : '\x0d' ∉ cs := fun m => h (List.mem_cons_of_mem _ m)
    cases cs with
    | nil =>
      rw [univNewlines, if_neg hc]
    | cons d ds =>
      rw [univNewlines, if_neg hc, ih hcs]

theorem readLinesAcc_append : ∀ (l : List Char) (rest acc : List Char), '\n' ∉ l →
    readLinesAcc (l ++ '\n' :: rest) acc = (acc.reverse ++ l) :: readLinesAcc rest [] := by
  intro l
  induction l with
  | nil =>
    intro rest acc _
    rw [List.nil_append, readLinesAcc, if_pos rfl]
    simp
  | cons c cs ih =>
    intro rest acc h
    have hc : c ≠ '\n' := fun e => h (by simp [e])
    have hcs : '\n' ∉ cs := fun m => h (List.mem_cons_of_mem _ m)
    rw [List.cons_append, readLinesAcc, if_neg hc, ih rest (c :: acc) hcs]
    simp

theorem splitTabAcc_append : ∀ (f : List Char) (rest acc : List Char), '\t' ∉ f →
    splitTabAcc (f ++ '\t' :: rest) acc = (acc.reverse ++ f) :: splitTabAcc rest [] := by
  intro f
  induction f with
  | nil =>
    intro rest acc _
    rw [List.nil_append, splitTabAcc, if_pos rfl]
    simp
  | cons c cs ih =>
    intro rest acc h
    have hc : c ≠ '\t' := fun e => h (by simp [e])
    have hcs : '\t' ∉ cs := fun m => h (List.mem_cons_of_mem _ m)
    rw [List.cons_append, splitTabAcc, if_neg hc, ih rest (c :: acc) hcs]
    simp

theorem splitTabAcc_noTab : ∀ (f acc : List Char), '\t' ∉ f →
    splitTabAcc f acc = [acc.reverse ++ f] := by
  intro f
  induction f with
  | nil => intro acc _; simp [splitTabAcc]
  | cons c cs ih =>
    intro acc h
    have hc : c ≠ '\t' := fun e => h (by simp [e])
    have hcs : '\t' ∉ cs := fun m => h (List.mem_cons_of_mem _ m)
    rw [splitTabAcc, if_neg hc, ih (c :: acc) hcs]
    simp

theorem natToCharsGo_digits : ∀ (fuel n : Nat), ∀ ch ∈ natToCharsGo fuel n,
    ch.isDigit = true := by
  intro fuel
  induction fuel with
  | zero => intro n ch h; simp [natToCharsGo] at h
  | succ f ih =>
    intro n ch h
    rw [natToCharsGo] at h
    by_cases h10 : n < 10
    · rw [if_pos h10] at h
      simp only [List.mem_singleton] at h
      subst h
      interval_cases n <;> decide
    · rw [if_neg h10] at h
      simp only [List.mem_append, List.mem_singleton] at h
      rcases h with h | h
      · exact ih _ _ h
      · subst h
        have hm : n % 10 < 10 := Nat.mod_lt _ (by norm_num)
        set m := n % 10 with hmdef
        interval_cases m <;> decide

theorem natToChars_digits (n : Nat) : ∀ ch ∈ natToChars n, ch.isDigit = true :=
  natToCharsGo_digits (n + 1) n

theorem natToChars_ne_nil (n : Nat) : natToChars n ≠ [] := by
  rw [natToChars, natToCharsGo]
  by_cases h10 : n < 10
  · rw [if_pos h10]; simp
  · rw [if_neg h10]; simp

theorem digit_clean {ch : Char} (h : ch.isDigit = true) :
    ch ≠ '\t' ∧ ch ≠ '\n' ∧ ch ≠ '\x0d' := by
  refine ⟨fun e => ?_, fun e => ?_, fun e => ?_⟩ <;>
    (subst e; exact absurd h (by decide))

theorem parseNatDigits_some {l : List Char} (hne : l ≠ [])
    (hd : ∀ ch ∈ l, ch.isDigit = true) : ∃ k, parseNatDigits l = some k := by
  refine ⟨l.foldl (fun a c => 10 * a + (c.toNat - 48)) 0, ?_⟩
  rw [parseNatDigits, if_pos]
  simp only [Bool.and_eq_true, Bool.not_eq_true', List.all_eq_true]
  exact ⟨by simpa using hne, hd⟩

theorem boolTF_noCtl (b : Bool) : '\t' ∉ boolTF b ∧ '\n' ∉ boolTF b ∧ '\x0d' ∉ boolTF b := by
  cases b <;> decide

theorem boolTF_head (b : Bool) : ∃ hc rest, boolTF b = hc :: rest ∧
    pyIsSpace hc = false ∧ hc ≠ '#' ∧ hc ≠ '$' := by
  cases b
  · exact ⟨'F', ['A', 'L', 'S', 'E'], rfl, by decide, by decide, by decide⟩
  · exact ⟨'T', ['R', 'U', 'E'], rfl, by decide, by decide, by decide⟩

theorem stripTrail_cons_nonws {c : Char} {cs : List Char} (h : pyIsSpace c = false) :
    stripTrail (c :: cs) = c :: stripTrail cs := by
  rw [stripTrail, if_neg]
  simp [h]

/-- The key of a cookie is unchanged by the round trip's expiry reparse. -/
def rtCookie (c : Cookie) : Cookie :=
  { c with expires := match c.expires with
      | none => none
      | some e => parseNatDigits (natToChars e) }

theorem cookieKey_rt (c : Cookie) : cookieKey (rtCookie c) = cookieKey c := rfl

theorem triple_rt (c : Cookie) :
    (rtCookie c).domain = c.domain ∧ (rtCookie c).name = c.name ∧
    (rtCookie c).value = c.value := ⟨rfl, rfl, rfl⟩

theorem setCookie_append {jar : List Cookie} {c : Cookie}
    (h : ∀ j ∈ jar, cookieKey j ≠ cookieKey c) : setCookie jar c = jar ++ [c] := by
  rw [setCookie, if_neg]
  simp only [List.any_eq_true, decide_eq_true_eq, not_exists, not_and]
  exact h

theorem expField_digits (c : Cookie) : ∀ ch ∈ expField c, ch.isDigit = true := by
  intro ch hch
  rw [expField] at hch
  cases he : c.expires with
  | none => rw [he] at hch; simp at hch
  | some e => rw [he] at hch; exact natToChars_digits e ch hch

theorem nameField_noCtl {c : Cookie} (hc : cleanCookie c = true) :
    noCtl (nameField c) = true := by
  obtain ⟨_, _, hn, _, _, _⟩ := cleanCookie_spec hc
  rw [nameField]
  cases c.value with
  | none => rfl
  | some v => exact hn

theorem valueField_noCtl {c : Cookie} (hc : cleanCookie c = true) :
    noCtl (valueField c) = true := by
  obtain ⟨_, _, hn, hv, _, _⟩ := cleanCookie_spec hc
  rw [valueField]
  cases hcv : c.value with
  | none => exact hn
  | some v => exact hv v hcv

theorem mem_httpOnlyPrefix_clean : ∀ ch ∈ httpOnlyPrefix, ch ≠ '\n' ∧ ch ≠ '\x0d' := by
  decide

theorem mem_boolTF_clean (b : Bool) : ∀ ch ∈ boolTF b, ch ≠ '\n' ∧ ch ≠ '\x0d' := by
  cases b <;> decide

theorem cookieLineBody_clean_mem {c : Cookie} (hc : cleanCookie c = true) :
    ∀ ch ∈ cookieLineBody c, ch ≠ '\n' ∧ ch ≠ '\x0d' := by
  obtain ⟨hd, hp, hn, hv, hne, _⟩ := cleanCookie_spec hc
  obtain ⟨_, hd2, hd3⟩ := noCtl_spec hd
  obtain ⟨_, hp2, hp3⟩ := noCtl_spec hp
  obtain ⟨_, hnf2, hnf3⟩ := noCtl_spec (nameField_noCtl hc)
  obtain ⟨_, hvf2, hvf3⟩ := noCtl_spec (valueField_noCtl hc)
  intro ch hch
  simp only [cookieLineBody, coreBody, List.mem_append, List.mem_cons] at hch
  rcases hch with hch | hch
  · cases hH : c.httpOnly
    · rw [hH] at hch; simp at hch
    · rw [hH] at hch; simp only [if_pos] at hch
      exact mem_httpOnlyPrefix_clean ch hch
  · rcases hch with hch | hch
    · exact ⟨fun e => hd2 (e ▸ hch), fun e => hd3 (e ▸ hch)⟩
    · rcases hch with hch | hch
      · subst hch; exact ⟨by decide, by decide⟩
      · rcases hch with hch | hch
        · exact mem_boolTF_clean _ ch hch
        · rcases hch with hch | hch
          · subst hch; exact ⟨by decide, by decide⟩
          · rcases hch with hch | hch
            · exact ⟨fun e => hp2 (e ▸ hch), fun e => hp3 (e ▸ hch)⟩
            · rcases hch with hch | hch
              · subst hch; exact ⟨by decide, by decide⟩
              · rcases hch with hch | hch
                · exact mem_boolTF_clean _ ch hch
                · rcases hch with hch | hch
                  · subst hch; exact ⟨by decide, by decide⟩
                  · rcases hch with hch | hch
                    · have := expField_digits c ch hch
                      obtain ⟨_, e2, e3⟩ := digit_clean this
                      exact ⟨e2, e3⟩
                    · rcases hch with hch | hch
                      · subst hch; exact ⟨by decide, by decide⟩
                      · rcases hch with hch | hch
                        · exact ⟨fun e => hnf2 (e ▸ hch), fun e => hnf3 (e ▸ hch)⟩
                        · rcases hch with hch | hch
                          · subst hch; exact ⟨by decide, by decide⟩
                          · exact ⟨fun e => hvf2 (e ▸ hch), fun e => hvf3 (e ▸ hch)⟩

theorem splitTab_coreBody {c : Cookie} (hc : cleanCookie c = true) :
    splitTab (coreBody c) =
      [c.domain, boolTF (isPrefixL ['.'] c.domain), c.path, boolTF c.secure,
       expField c, nameField c, valueField c] := by
  obtain ⟨hd, hp, _, _, _, _⟩ := cleanCookie_spec hc
  have hdT : '\t' ∉ c.domain := (noCtl_spec hd).1
  have hpT : '\t' ∉ c.path := (noCtl_spec hp).1
  have hbT : ∀ b : Bool, '\t' ∉ boolTF b := fun b => (boolTF_noCtl b).1
  have heT : '\t' ∉ expField c := by
    intro m
    exact (digit_clean (expField_digits c _ m)).1 rfl
  have hnT : '\t' ∉ nameField c := (noCtl_spec (nameField_noCtl hc)).1
  have hvT : '\t' ∉ valueField c := (noCtl_spec (valueField_noCtl hc)).1
  rw [splitTab, coreBody]
  rw [splitTabAcc_append _ _ _ hdT]
  rw [splitTabAcc_append _ _ _ (hbT _)]
  rw [splitTabAcc_append _ _ _ hpT]
  rw [splitTabAcc_append _ _ _ (hbT _)]
  rw [splitTabAcc_append _ _ _ heT]
  rw [splitTabAcc_append _ _ _ hnT]
  rw [splitTabAcc_noTab _ _ hvT]
  simp

theorem boolTF_decide (b : Bool) : (boolTF b = "TRUE".toList : Bool) = b := by
  cases b
  · decide
  · decide

theorem boolTF_decide_lit (b : Bool) :
    decide (boolTF b = ['T', 'R', 'U', 'E']) = b := by
  cases b
  · decide
  · decide

theorem parseFields_coreBody {c : Cookie} (hc : cleanCookie c = true) :
    parseFields c.httpOnly (splitTab (coreBody c)) = some (rtCookie c) := by
  obtain ⟨_, _, _, _, hne, _⟩ := cleanCookie_spec hc
  rw [splitTab_coreBody hc, parseFields]
  rw [if_pos (by rw [boolTF_decide])]
  cases he : c.expires with
  | none =>
    have hexp : expField c = [] := by rw [expField, he]
    rw [hexp]
    simp only [List.isEmpty_nil, if_pos]
    cases hv : c.value with
    | none =>
      have hnf : nameField c = [] := by rw [nameField, hv]
      have hvf : valueField c = c.name := by rw [valueField, hv]
      rw [hnf, hvf]
      simp [rtCookie, boolTF_decide, boolTF_decide_lit, he, hv]
    | some v =>
      have hnf : nameField c = c.name := by rw [nameField, hv]
      have hvf : valueField c = v := by rw [valueField, hv]
      rw [hnf, hvf]
      simp only [List.isEmpty_eq_true, hne, if_neg]
      simp [rtCookie, boolTF_decide, boolTF_decide_lit, he, hv]
  | some e =>
    have hexp : expField c = natToChars e := by rw [expField, he]
    obtain ⟨k, hk⟩ := parseNatDigits_some (natToChars_ne_nil e) (natToChars_digits e)
    rw [hexp]
    rw [show (natToChars e).isEmpty = false by
      simpa using natToChars_ne_nil e]
    simp only [Bool.false_eq_true, if_neg, hk]
    cases hv : c.value with
    | none =>
      have hnf : nameField c = [] := by rw [nameField, hv]
      have hvf : valueField c = c.name := by rw [valueField, hv]
      rw [hnf, hvf]
      simp [rtCookie, boolTF_decide, boolTF_decide_lit, he, hv, hk]
    | some v =>
      have hnf : nameField c = c.name := by rw [nameField, hv]
      have hvf : valueField c = v := by rw [valueField, hv]
      rw [hnf, hvf]
      simp only [List.isEmpty_eq_true, hne, if_neg]
      simp [rtCookie, boolTF_decide, boolTF_decide_lit, he, hv, hk]

theorem httpOnlyPrefix_not_coreBody {c : Cookie} (hc : cleanCookie c = true) :
    isPrefixL httpOnlyPrefix (coreBody c) = false := by
  obtain ⟨_, _, _, _, _, hhead⟩ := cleanCookie_spec hc
  rw [coreBody]
  cases hd : c.domain with
  | nil =>
    simp [httpOnlyPrefix, isPrefixL]
  | cons x d' =>
    have hx : x ≠ '#' := by
      by_cases hws : pyIsSpace x = true
      · intro e
        rw [e] at hws
        exact absurd hws (by decide)
      · have : (c.domain.dropWhile pyIsSpace).head? = some x := by
          rw [hd, List.dropWhile_cons, if_neg (by simp [hws])]
          rfl
        exact (hhead x this).1
    rw [List.cons_append]
    have : ('#' = x) = False := by
      simp only [eq_iff_iff, iff_false]
      exact fun e => hx e.symm
    simp [httpOnlyPrefix, isPrefixL, this]

theorem pyStrip_coreBody {c : Cookie} (hc : cleanCookie c = true) :
    ∃ hch tl, pyStrip (coreBody c) = hch :: tl ∧ hch ≠ '#' ∧ hch ≠ '$' := by
  obtain ⟨_, _, _, _, _, hhead⟩ := cleanCookie_spec hc
  rw [coreBody, pyStrip]
  rw [List.dropWhile_append]
  by_cases hD : (c.domain.dropWhile pyIsSpace).isEmpty
  · rw [if_pos hD]
    rw [List.dropWhile_cons]
    rw [if_pos (by decide)]
    obtain ⟨hch, rest, hb, hws, h1, h2⟩ := boolTF_head (isPrefixL ['.'] c.domain)
    rw [hb, List.cons_append]
    rw [List.dropWhile_cons, if_neg (by simp [hws])]
    rw [stripTrail_cons_nonws hws]
    exact ⟨hch, _, rfl, h1, h2⟩
  · rw [if_neg hD]
    have hne : c.domain.dropWhile pyIsSpace ≠ [] := by simpa using hD
    obtain ⟨x, xs, hx⟩ := List.exists_cons_of_ne_nil hne
    have hws : pyIsSpace x = false := dropWhile_cons_false hx
    have hx' : x ≠ '#' ∧ x ≠ '$' := hhead x (by rw [hx]; rfl)
    rw [hx, List.cons_append]
    rw [stripTrail_cons_nonws hws]
    exact ⟨x, _, rfl, hx'.1, hx'.2⟩

theorem skip_cond_false {c : Cookie} (hc : cleanCookie c = true) :
    ((pyStrip (coreBody c)).isEmpty
      || isPrefixL ['#'] (pyStrip (coreBody c))
      || isPrefixL ['$'] (pyStrip (coreBody c))) = false := by
  obtain ⟨hch, tl, hs, h1, h2⟩ := pyStrip_coreBody hc
  rw [hs]
  have e1 : ('#' = hch) = False := by
    simp only [eq_iff_iff, iff_false]
    exact fun e => h1 e.symm
  have e2 : ('$' = hch) = False := by
    simp only [eq_iff_iff, iff_false]
    exact fun e => h2 e.symm
  simp [isPrefixL, e1, e2]

theorem processLines_cookie_step (c : Cookie) (rest : List (List Char)) (jar : List Cookie)
    (hc : cleanCookie c = true) :
    processLines (cookieLineBody c :: rest) jar =
      processLines rest (setCookie jar (rtCookie c)) := by
  cases hH : c.httpOnly
  · have hbody : cookieLineBody c = coreBody c := by
      rw [cookieLineBody, hH]
      simp
    have hpre : isPrefixL httpOnlyPrefix (coreBody c) = false :=
      httpOnlyPrefix_not_coreBody hc
    rw [hbody, processLines, hpre]
    simp only [Bool.false_eq_true, if_neg, if_false]
    rw [if_neg (by simp [skip_cond_false hc])]
    rw [show parseFields false (splitTab (coreBody c)) = some (rtCookie c) by
      rw [← hH]; exact parseFields_coreBody hc]
  · have hbody : cookieLineBody c = httpOnlyPrefix ++ coreBody c := by
      rw [cookieLineBody, hH]
      simp
    have hpre : isPrefixL httpOnlyPrefix (httpOnlyPrefix ++ coreBody c) = true :=
      isPrefixL_self_append _ _
    have hdrop : (httpOnlyPrefix ++ coreBody c).drop 10 = coreBody c := rfl
    rw [hbody, processLines, hpre]
    simp only [if_pos, if_true, hdrop]
    rw [if_neg (by simp [skip_cond_false hc])]
    rw [show parseFields true (splitTab (coreBody c)) = some (rtCookie c) by
      rw [← hH]; exact parseFields_coreBody hc]

theorem processLines_map : ∀ (cs jar : List Cookie),
    (∀ c ∈ cs, cleanCookie c = true) →
    cs.Pairwise (fun a b => cookieKey a ≠ cookieKey b) →
    (∀ c ∈ cs, ∀ j ∈ jar, cookieKey j ≠ cookieKey c) →
    processLines (cs.map cookieLineBody) jar = some (jar ++ cs.map rtCookie) := by
  intro cs
  induction cs with
  | nil => intro jar _ _ _; simp [processLines]
  | cons c cs' ih =>
    intro jar hclean hpair hdisj
    have hc : cleanCookie c = true := hclean c (List.mem_cons_self _ _)
    rw [List.map_cons, processLines_cookie_step c _ jar hc]
    rw [setCookie_append (c := rtCookie c) (by
      intro j hj
      rw [cookieKey_rt]
      exact hdisj c (List.mem_cons_self _ _) j hj)]
    rw [ih (jar ++ [rtCookie c])
      (fun x hx => hclean x (List.mem_cons_of_mem _ hx))
      (List.Pairwise.sublist (List.sublist_cons_self c cs') hpair)
      (by
        intro x hx j hj
        rcases List.mem_append.mp hj with hj | hj
        · exact hdisj x (List.mem_cons_of_mem _ hx) j hj
        · rw [List.mem_singleton.mp hj, cookieKey_rt]
          exact (List.pairwise_cons.mp hpair).1 x hx)]
    simp

/-- The three header lines of the saved file. -/
def headerLine1 : List Char := "# Netscape HTTP Cookie File".toList

def headerLine2 : List Char := "# http://curl.haxx.se/rfc/cookie_spec.html".toList

def headerLine3 : List Char := "# This is a generated file!  Do not edit.".toList

theorem readLinesAcc_flatMap : ∀ (cs : List Cookie),
    (∀ c ∈ cs, cleanCookie c = true) →
    readLinesAcc (cs.flatMap cookieLine) [] = cs.map cookieLineBody := by
  intro cs
  induction cs with
  | nil => intro _; rfl
  | cons c cs' ih =>
    intro hclean
    have hc := hclean c (List.mem_cons_self _ _)
    have hnl : '\n' ∉ cookieLineBody c :=
      fun m => (cookieLineBody_clean_mem hc '\n' m).1 rfl
    rw [List.flatMap_cons, cookieLine, List.append_assoc, List.singleton_append]
    rw [readLinesAcc_append _ _ _ hnl]
    rw [ih (fun x hx => hclean x (List.mem_cons_of_mem _ hx))]
    simp

theorem readLines_save (store : List Cookie)
    (hclean : ∀ c ∈ store, cleanCookie c = true) :
    readLines (saveJarContents store) =
      headerLine1 :: headerLine2 :: headerLine3 :: [] :: store.map cookieLineBody := by
  have hhdr : netscapeHeader ++ store.flatMap cookieLine =
      headerLine1 ++ '\n' :: (headerLine2 ++ '\n' :: (headerLine3 ++ '\n' ::
        ('\n' :: store.flatMap cookieLine))) := by
    rw [show netscapeHeader = headerLine1 ++ '\n' :: (headerLine2 ++ '\n' ::
        (headerLine3 ++ '\n' :: ['\n'])) from rfl]
    simp [List.append_assoc]
  rw [readLines, saveJarContents, hhdr]
  rw [readLinesAcc_append _ _ _ (by decide)]
  rw [readLinesAcc_append _ _ _ (by decide)]
  rw [readLinesAcc_append _ _ _ (by decide)]
  rw [show readLinesAcc ('\n' :: store.flatMap cookieLine) [] =
      [] :: readLinesAcc (store.flatMap cookieLine) [] by
    rw [readLinesAcc, if_pos rfl]; rfl]
  rw [readLinesAcc_flatMap store hclean]
  simp

theorem saveJarContents_no_cr (store : List Cookie)
    (hclean : ∀ c ∈ store, cleanCookie c = true) :
    '\x0d' ∉ saveJarContents store := by
  intro m
  rw [saveJarContents] at m
  rcases List.mem_append.mp m with m | m
  · exact absurd m (by decide)
  · obtain ⟨c, hcm, m⟩ := List.mem_flatMap.mp m
    rw [cookieLine] at m
    rcases List.mem_append.mp m with m | m
    · exact (cookieLineBody_clean_mem (hclean c hcm) _ m).2 rfl
    · simp at m

set_option maxRecDepth 8000 in
theorem loadJar_save (store : List Cookie)
    (hclean : ∀ c ∈ store, cleanCookie c = true)
    (hkeys : store.Pairwise fun a b => cookieKey a ≠ cookieKey b) :
    loadJar (saveJarContents store) = some (store.map rtCookie) := by
  rw [loadJar, univNewlines_id _ (saveJarContents_no_cr store hclean)]
  rw [readLines_save store hclean]
  show (if magicOk headerLine1 = true then
    processLines (headerLine2 :: headerLine3 :: [] :: store.map cookieLineBody) []
    else none) = some (store.map rtCookie)
  rw [if_pos (show magicOk headerLine1 = true from by decide)]
  rw [show ∀ rest jar, processLines (headerLine2 :: headerLine3 :: [] :: rest) jar =
      processLines rest jar from fun _ _ => rfl]
  rw [processLines_map store [] hclean hkeys (by simp)]
  simp

/-! ### Claims about the session/cookie layer -/

/-- C3.  After every `get`/`post` that completes at the transport level —
whatever the status code — the full in-memory store is written to the
cookie file and the file is chmodded to `0o600`; on a transport-level
failure the call fails and the file is untouched (the exception propagates
before `_save_cookies` runs). -/
theorem cookies_persisted_every_request (st : SessionState) (tr : Transport) :
    (∀ resp newStore, tr = Transport.success resp newStore →
      sessionGet st tr = .ok (resp,
        { cookies := newStore,
          file := { contents := some (saveJarContents newStore), mode := some 0o600 } }) ∧
      sessionPost st tr = .ok (resp,
        { cookies := newStore,
          file := { contents := some (saveJarContents newStore), mode := some 0o600 } })) ∧
    (tr = Transport.failure →
      sessionGet st tr = .error () ∧ sessionPost st tr = .error ()) := by
  constructor
  · intro resp newStore h
    subst h
    exact ⟨rfl, rfl⟩
  · intro h
    subst h
    exact ⟨rfl, rfl⟩

/-- Witness for C3 at a concrete state and transport outcome (a non-2xx
status, to exhibit that persistence is not skipped on application-level
failure). -/
theorem cookies_persisted_every_request_witness :
    (Transport.success ⟨500, []⟩ [⟨"example.com".toList, "/".toList, false, none,
        "sid".toList, some "abc".toList, false⟩] =
      Transport.success ⟨500, []⟩ [⟨"example.com".toList, "/".toList, false, none,
        "sid".toList, some "abc".toList, false⟩]) ∧
    sessionGet ⟨[], ⟨none, none⟩⟩ (Transport.success ⟨500, []⟩
        [⟨"example.com".toList, "/".toList, false, none, "sid".toList,
          some "abc".toList, false⟩]) =
      .ok (⟨500, []⟩,
        { cookies := [⟨"example.com".toList, "/".toList, false, none, "sid".toList,
            some "abc".toList, false⟩],
          file := { contents := some (saveJarContents
            [⟨"example.com".toList, "/".toList, false, none, "sid".toList,
              some "abc".toList, false⟩]), mode := some 0o600 } }) :=
  ⟨rfl,
    ((cookies_persisted_every_request ⟨[], ⟨none, none⟩⟩
      (Transport.success ⟨500, []⟩
        [⟨"example.com".toList, "/".toList, false, none, "sid".toList,
          some "abc".toList, false⟩])).1 _ _ rfl).1⟩

/-- C6.  Constructing a session over a present-but-corrupted cookie file
never raises (the model is a total function, mirroring the
`except Exception: pass` at session.py lines 30–32) and yields exactly the
empty store. -/
theorem corrupted_cookie_file_fresh (contents : List Char)
    (h : loadJar contents = none) :
    sessionStoreOfFile (some contents) = [] := by
  rw [sessionStoreOfFile, h]

/-- Witness for C6 at a concrete corrupted file. -/
theorem corrupted_cookie_file_fresh_witness :
    loadJar ("garbage\n".toList) = none ∧
    sessionStoreOfFile (some ("garbage\n".toList)) = [] :=
  ⟨by decide, corrupted_cookie_file_fresh _ (by decide)⟩

set_option maxRecDepth 4000 in
/-- C8, counterexample.  The round-trip claim is universal over cookie
stores, but the Mozilla cookie-file format does not escape its field
separator: a value containing a tab yields a line with eight columns,
`load` raises `LoadError`, the fresh session recovers to an empty store,
and the (domain, name, value) triples are lost. -/
theorem cookie_roundtrip_counterexample :
    triplesOf (roundTrip [⟨"example.com".toList, "/".toList, false, none,
        "sid".toList, some "a\tb".toList, false⟩]) ≠
      triplesOf [⟨"example.com".toList, "/".toList, false, none,
        "sid".toList, some "a\tb".toList, false⟩] := by
  decide

/-- C8 as amended.  For every cookie store whose (domain, path, name)
keys are pairwise distinct (as the in-memory jar guarantees) and whose
cookies are representable in the Mozilla line format — no tab, newline or
CR in any field, a non-empty name, and a domain whose first non-whitespace
character is not `#` or `$` — saving the store and loading the file into a
fresh session reproduces exactly the (domain, name, value) triples (the
load even succeeds, cookie for cookie, with only the expiry field
reparsed). -/
theorem cookie_roundtrip_amended (store : List Cookie)
    (hclean : ∀ c ∈ store, cleanCookie c = true)
    (hkeys : store.Pairwise fun a b => cookieKey a ≠ cookieKey b) :
    loadJar (saveJarContents store) = some (store.map rtCookie) ∧
    triplesOf (roundTrip store) = triplesOf store := by
  have h1 := loadJar_save store hclean hkeys
  refine ⟨h1, ?_⟩
  rw [roundTrip, sessionStoreOfFile, h1]
  rw [triplesOf, triplesOf, List.map_map]
  rfl

set_option maxRecDepth 8000 in
/-- Witness for the amended C8 at a concrete two-cookie store. -/
theorem cookie_roundtrip_amended_witness :
    (∀ c ∈ [(⟨"example.com".toList, "/".toList, false, none, "sid".toList,
        some "abc".toList, false⟩ : Cookie),
      ⟨".snow.com".toList, "/x".toList, true, some 12345, "tok".toList,
        some "v_1".toList, true⟩], cleanCookie c = true) ∧
    triplesOf (roundTrip [(⟨"example.com".toList, "/".toList, false, none, "sid".toList,
        some "abc".toList, false⟩ : Cookie),
      ⟨".snow.com".toList, "/x".toList, true, some 12345, "tok".toList,
        some "v_1".toList, true⟩]) =
      triplesOf [(⟨"example.com".toList, "/".toList, false, none, "sid".toList,
        some "abc".toList, false⟩ : Cookie),
      ⟨".snow.com".toList, "/x".toList, true, some 12345, "tok".toList,
        some "v_1".toList, true⟩] :=
  ⟨by decide,
    (cookie_roundtrip_amended _ (by decide) (by
      constructor
      · intro b hb
        rw [List.mem_singleton.mp hb]
        decide
      · constructor
        · intro b hb
          simp at hb
        · exact List.Pairwise.nil)).2⟩

end SnowCli
